import Mathlib

/-!
# Verification of the segmented streaming ledger encryption driver

Shallow embedding of `src/core/src/chacha.rs` (`chacha_cbc_encrypt_ledger`
and its constants), together with theorems settling the specification
claims about it.

The driver is modelled as a pure function.  Its external collaborators are
passed in explicitly:

* the storage layer (`blocktree.read_blobs_bytes`) is a script: the list of
  results it returns to the successive read requests, in order; once the
  script is exhausted the storage reports end of data (zero bytes);
* the cipher provider (`chacha20_cbc_encrypt` behind the FFI boundary) is
  an arbitrary function `input → key → iv → (output, new iv)`;
* the output sink (`BufWriter<File>`) is a function from the index of the
  write attempt to `none` (success) or `some e` (I/O error), and
* the result of `File::create` is an `Except` value.

Besides the outcome the model returns a `Trace` recording the read
requests issued, the cipher invocations (with their exact input, key and
incoming IV), the chunks handed to the sink, and the accumulator
snapshots, so that claims about "no second read", "the sink receives no
writes", the key fed to the cipher, and monotonicity of the accumulators
can be stated.
-/

namespace ChaCha

/-- Source: `pub const CHACHA_BLOCK_SIZE: usize = 64;` -/
def CHACHA_BLOCK_SIZE : Nat := 64

/-- Source: `pub const CHACHA_KEY_SIZE: usize = 32;` -/
def CHACHA_KEY_SIZE : Nat := 32

/-- Source: `const BUFFER_SIZE: usize = 8 * 1024;` -/
def BUFFER_SIZE : Nat := 8 * 1024

/-- Modelled from the spec: the segment capacity constant
`ENTRIES_PER_SEGMENT` lives in `storage_stage`, which is not under `src/`;
the spec only says it is the maximum record count of a segment.  The
claims do not depend on its numeric value; we fix a concrete one so the
model stays executable. -/
def ENTRIES_PER_SEGMENT : Nat := 16

/-- An I/O error value (`std::io::Error` is opaque to the driver; it is
only moved around, never inspected). -/
structure IoError where
  code : Nat
deriving DecidableEq

/-- One result of `blocktree.read_blobs_bytes`: either
`Ok((num_entries, entry_len))` — with the bytes it wrote into the buffer
given explicitly as `data` (so `entry_len = data.length`, capped at the
buffer size as the read can fill at most the buffer) — or `Err(e)`. -/
inductive StorageResp where
  | ok (numEntries : Nat) (data : List Nat)
  | error (e : IoError)
deriving DecidableEq

/-- Record count reported by a storage response (`num_entries` for a
successful read, none for an error). -/
def respEntries : StorageResp → Nat
  | .ok n _ => n
  | .error _ => 0

/-- How a call of `chacha_cbc_encrypt_ledger` ends: `Ok(total_size)`,
`Err(e)` from a failed sink write, or a panic — the `.expect` on
`File::create` aborts the process instead of returning. -/
inductive Outcome where
  | ok (totalSize : Nat)
  | err (e : IoError)
  | panicked (e : IoError)
deriving DecidableEq

/-- A read request issued to the storage layer: the starting record index
and the maximum record count, as passed to `read_blobs_bytes`. -/
structure ReadReq where
  entry : Nat
  maxEntries : Nat
deriving DecidableEq

/-- One invocation of the cipher provider: the payload length the read
reported (`entry_len`, before any rounding), the exact input slice fed to
the cipher, the key, and the IV at call time. -/
structure CipherCall where
  payload : Nat
  input : List Nat
  key : List Nat
  ivIn : List Nat
deriving DecidableEq

/-- The observable events of one driver run.  `accum` holds the
`(total_size, total_entries)` snapshot at the start of each loop
iteration (one per read request); `finalAcc` is the accumulator pair when
the loop exits. -/
structure Trace where
  reads : List ReadReq
  accum : List (Nat × Nat)
  ciphers : List CipherCall
  writes : List (List Nat)
  finalAcc : Nat × Nat
deriving DecidableEq

/-- The cipher provider: `(input, key, iv) ↦ (ciphertext, updated iv)` —
`chacha_cbc_encrypt` mutates `ivec` in place, modelled by returning it. -/
def Cipher : Type := List Nat → List Nat → List Nat → List Nat × List Nat

/-- A trivial concrete provider used to instantiate theorems on concrete
runs: ciphertext = plaintext, IV unchanged. -/
def idCipher : Cipher := fun input _ iv => (input, iv)

/-- Source line 69: `size = (size + CHACHA_KEY_SIZE - 1) & !(CHACHA_KEY_SIZE - 1)`.
On a 64-bit `usize` the complement `!(CHACHA_KEY_SIZE - 1) = !31` is the
literal `2^64 - 32`. -/
def round_to_key_size (size : Nat) : Nat :=
  (size + CHACHA_KEY_SIZE - 1) &&& (2 ^ 64 - CHACHA_KEY_SIZE)

/-- The boundary policy of the loop body (source lines 66-71): a chunk
that does not fill the buffer is rounded, a full chunk is fed as is. -/
def chunkSize (entry_len : Nat) : Nat :=
  if entry_len < BUFFER_SIZE then round_to_key_size entry_len else entry_len

/-- A read that returned `data` overwrites the first `data.length` bytes
of the reused 8192-byte buffer; the rest keeps its stale contents. -/
def fillBuffer (buffer data : List Nat) : List Nat :=
  List.take BUFFER_SIZE (data ++ List.drop data.length buffer)

/-- The mutable state of the driver loop: the two reused buffers are the
read buffer (the encrypt buffer's contents are what the cipher last wrote
and are recorded in the trace), plus the IV and the accumulators of
`chacha_cbc_encrypt_ledger`. -/
structure LoopState where
  buffer : List Nat
  ivec : List Nat
  total_entries : Nat
  total_size : Nat
  entry : Nat
  writeIdx : Nat

/-- The `loop { match blocktree.read_blobs_bytes(...) ... }` body of
`chacha_cbc_encrypt_ledger`, by recursion on the storage script. -/
def runLoop (cipher : Cipher) (sink : Nat → Option IoError) :
    List StorageResp → LoopState → Outcome × Trace
  | [], st =>
      -- the storage reports end of data once its script is exhausted:
      -- the read is issued and returns zero bytes, so the loop breaks
      (.ok st.total_size,
       ⟨[⟨st.entry, ENTRIES_PER_SEGMENT - st.total_entries⟩],
        [(st.total_size, st.total_entries)], [], [],
        (st.total_size, st.total_entries)⟩)
  | .error _ :: _, st =>
      -- `Err(e) => { info!(...); break; }`
      (.ok st.total_size,
       ⟨[⟨st.entry, ENTRIES_PER_SEGMENT - st.total_entries⟩],
        [(st.total_size, st.total_entries)], [], [],
        (st.total_size, st.total_entries)⟩)
  | .ok num_entries data :: rest, st =>
      let req : ReadReq := ⟨st.entry, ENTRIES_PER_SEGMENT - st.total_entries⟩
      -- `entry_len` as reported by the read; it can fill at most the buffer
      let entry_len := min data.length BUFFER_SIZE
      let buffer := fillBuffer st.buffer data
      if entry_len = 0 then
        -- `if size == 0 { break; }`
        (.ok st.total_size,
         ⟨[req], [(st.total_size, st.total_entries)], [], [],
          (st.total_size, st.total_entries)⟩)
      else
        -- `if size < BUFFER_SIZE { size = round...; }`
        let size := chunkSize entry_len
        let total_size := st.total_size + size
        let key : List Nat := List.replicate CHACHA_KEY_SIZE 0
        let input := buffer.take size
        let encrypted := (cipher input key st.ivec).1
        let ivec := (cipher input key st.ivec).2
        let cc : CipherCall := ⟨entry_len, input, key, st.ivec⟩
        match sink st.writeIdx with
        | some e =>
            -- `if let Err(res) = out_file.write(...) { return Err(res); }`
            (.err e,
             ⟨[req], [(st.total_size, st.total_entries)], [cc], [encrypted],
              (total_size, st.total_entries)⟩)
        | none =>
            let r := runLoop cipher sink rest
              { buffer := buffer, ivec := ivec,
                total_entries := st.total_entries + num_entries,
                total_size := total_size,
                entry := st.entry + num_entries,
                writeIdx := st.writeIdx + 1 }
            (r.1,
             ⟨req :: r.2.reads, (st.total_size, st.total_entries) :: r.2.accum,
              cc :: r.2.ciphers, encrypted :: r.2.writes, r.2.finalAcc⟩)

/-- The public entry point `chacha_cbc_encrypt_ledger`: creates the
output sink (panicking on failure, per the `.expect`), zeroes the buffers
and the key, and runs the loop starting at record index `slice`. -/
def chacha_cbc_encrypt_ledger (cipher : Cipher)
    (create_result : Except IoError Unit) (sink : Nat → Option IoError)
    (script : List StorageResp) (slice : Nat) (ivec : List Nat) :
    Outcome × Trace :=
  match create_result with
  | .error e => (.panicked e, ⟨[], [], [], [], (0, 0)⟩)
  | .ok _ =>
      runLoop cipher sink script
        { buffer := List.replicate BUFFER_SIZE 0, ivec := ivec,
          total_entries := 0, total_size := 0, entry := slice, writeIdx := 0 }

/-! ## Arithmetic facts about the rounding mask -/

/-- Masking with `!31` on a 64-bit word clears the low five bits:
for `x < 2^64`, `x &&& (2^64 - 32) = 32 * (x / 32)`. -/
theorem land_two_pow_sub_key (x : Nat) (hx : x < 2 ^ 64) :
    x &&& (2 ^ 64 - 32) = 32 * (x / 32) := by
  have hmask : (2 : Nat) ^ 64 - 32 = (2 ^ 59 - 1) <<< 5 := by decide
  have hdiv : 32 * (x / 32) = (x >>> 5) <<< 5 := by
    rw [Nat.shiftRight_eq_div_pow, Nat.shiftLeft_eq]
    norm_num [Nat.mul_comm]
  apply Nat.eq_of_testBit_eq
  intro i
  rw [hmask, hdiv, Nat.testBit_land, Nat.testBit_shiftLeft, Nat.testBit_shiftLeft,
    Nat.testBit_shiftRight, Nat.testBit_two_pow_sub_one]
  by_cases h5 : 5 ≤ i
  · have h55 : 5 + (i - 5) = i := by omega
    by_cases h64 : i < 64
    · have h59 : i - 5 < 59 := by omega
      simp [ge_iff_le, h5, h55, h59]
    · have hxf : x.testBit i = false :=
        Nat.testBit_lt_two_pow
          (lt_of_lt_of_le hx (Nat.pow_le_pow_right (by norm_num) (by omega)))
      have h59 : ¬ (i - 5 < 59) := by omega
      simp [ge_iff_le, h5, h55, h59, hxf]
  · simp [ge_iff_le, h5]

/-- The source's bit trick is rounding up to the next multiple of the
key size (32), expressed arithmetically. -/
theorem round_to_key_size_eq (s : Nat) (hs : s + 31 < 2 ^ 64) :
    round_to_key_size s =
      CHACHA_KEY_SIZE * ((s + CHACHA_KEY_SIZE - 1) / CHACHA_KEY_SIZE) := by
  have h31 : s + CHACHA_KEY_SIZE - 1 = s + 31 := by
    simp only [CHACHA_KEY_SIZE]; omega
  simp only [round_to_key_size, h31, CHACHA_KEY_SIZE]
  exact land_two_pow_sub_key _ hs

/-- Rounding never shrinks the size. -/
theorem le_round_to_key_size (s : Nat) (hs : s + 31 < 2 ^ 64) :
    s ≤ round_to_key_size s := by
  rw [round_to_key_size_eq s hs]
  simp only [CHACHA_KEY_SIZE]
  have h1 := Nat.div_add_mod (s + 32 - 1) 32
  have h2 : (s + 32 - 1) % 32 < 32 := Nat.mod_lt _ (by norm_num)
  omega

/-- The rounded size of a short chunk still fits in the buffer. -/
theorem round_to_key_size_le_buffer (s : Nat) (hs : s < BUFFER_SIZE) :
    round_to_key_size s ≤ BUFFER_SIZE := by
  have h : s + 31 < 2 ^ 64 := by
    simp only [BUFFER_SIZE] at hs; omega
  rw [round_to_key_size_eq s h]
  simp only [CHACHA_KEY_SIZE, BUFFER_SIZE] at *
  have hle : (s + 32 - 1) / 32 ≤ 8222 / 32 :=
    Nat.div_le_div_right (by omega)
  omega

/-- The key size divides the rounded size. -/
theorem key_size_dvd_round (s : Nat) (hs : s + 31 < 2 ^ 64) :
    CHACHA_KEY_SIZE ∣ round_to_key_size s := by
  rw [round_to_key_size_eq s hs]
  exact Dvd.intro _ rfl

/-- The fed size of any nonempty chunk fits in the buffer. -/
theorem chunkSize_le_buffer (e : Nat) (he : e ≤ BUFFER_SIZE) :
    chunkSize e ≤ BUFFER_SIZE := by
  unfold chunkSize
  split
  · exact round_to_key_size_le_buffer _ (by assumption)
  · exact he

/-- Filling the reused buffer preserves its capacity. -/
theorem fillBuffer_length (buffer data : List Nat)
    (h : buffer.length = BUFFER_SIZE) :
    (fillBuffer buffer data).length = BUFFER_SIZE := by
  simp only [fillBuffer, List.length_take, List.length_append, List.length_drop, h]
  omega

/-- The slice handed to the cipher has exactly the computed size. -/
theorem take_chunkSize_length (buffer : List Nat) (e : Nat)
    (hbuf : buffer.length = BUFFER_SIZE) (he : e ≤ BUFFER_SIZE) :
    (buffer.take (chunkSize e)).length = chunkSize e := by
  rw [List.length_take, hbuf]
  exact min_eq_left (chunkSize_le_buffer e he)

/-! ## Invariants of the driver loop -/

/-- Every cipher invocation of a run receives the local all-zero key. -/
theorem runLoop_ciphers_key (cipher : Cipher) (sink : Nat → Option IoError)
    (script : List StorageResp) :
    ∀ st : LoopState, ∀ c ∈ (runLoop cipher sink script st).2.ciphers,
      c.key = List.replicate CHACHA_KEY_SIZE 0 := by
  induction script with
  | nil => intro st c hc; simp [runLoop] at hc
  | cons resp rest ih =>
      intro st c hc
      cases resp with
      | error e => simp [runLoop] at hc
      | ok n data =>
          simp only [runLoop] at hc
          split at hc
          · simp at hc
          · split at hc
            · simp at hc
              rw [hc]
            · simp at hc
              rcases hc with hc | hc
              · rw [hc]
              · exact ih _ c hc

/-- Every cipher invocation of a run is on a nonempty payload and is fed
exactly `chunkSize payload` bytes. -/
theorem runLoop_ciphers_sizes (cipher : Cipher) (sink : Nat → Option IoError)
    (script : List StorageResp) :
    ∀ st : LoopState, st.buffer.length = BUFFER_SIZE →
      ∀ c ∈ (runLoop cipher sink script st).2.ciphers,
        0 < c.payload ∧ c.payload ≤ BUFFER_SIZE ∧
          c.input.length = chunkSize c.payload := by
  induction script with
  | nil => intro st _ c hc; simp [runLoop] at hc
  | cons resp rest ih =>
      intro st hbuf c hc
      cases resp with
      | error e => simp [runLoop] at hc
      | ok n data =>
          have hfill : (fillBuffer st.buffer data).length = BUFFER_SIZE :=
            fillBuffer_length _ _ hbuf
          have hB : 0 < BUFFER_SIZE := by norm_num [BUFFER_SIZE]
          have hlen : min data.length BUFFER_SIZE ≤ BUFFER_SIZE :=
            Nat.min_le_right _ _
          have hinput :
              ((fillBuffer st.buffer data).take
                  (chunkSize (min data.length BUFFER_SIZE))).length =
                chunkSize (min data.length BUFFER_SIZE) :=
            take_chunkSize_length _ _ hfill hlen
          simp only [runLoop] at hc
          split at hc
          · simp at hc
          · next h0 =>
            split at hc
            · simp at hc
              rw [hc]
              exact ⟨Nat.pos_of_ne_zero h0, hlen, hinput⟩
            · simp at hc
              rcases hc with hc | hc
              · rw [hc]
                exact ⟨Nat.pos_of_ne_zero h0, hlen, hinput⟩
              · exact ih _ hfill c hc



theorem runLoop_final_size (cipher : Cipher) (sink : Nat → Option IoError)
    (script : List StorageResp) :
    ∀ st : LoopState, st.buffer.length = BUFFER_SIZE →
      (runLoop cipher sink script st).2.finalAcc.1 =
        st.total_size +
          (((runLoop cipher sink script st).2.ciphers.map
            fun c => c.input.length).sum) := by
  induction script with
  | nil => intro st _; simp [runLoop]
  | cons resp rest ih =>
      intro st hbuf
      cases resp with
      | error e => simp [runLoop]
      | ok n data =>
          have hfill := fillBuffer_length st.buffer data hbuf
          have hlen : min data.length BUFFER_SIZE ≤ BUFFER_SIZE :=
            Nat.min_le_right _ _
          have hinput := take_chunkSize_length (fillBuffer st.buffer data) _ hfill hlen
          simp only [runLoop]
          split
          · simp
          · split
            · simp [hinput]
            · simp only [List.map_cons, List.sum_cons]
              rw [ih _ hfill, hinput]
              simp only [List.map_cons]
              omega

theorem runLoop_sink_eq (cipher : Cipher) (sink1 sink2 : Nat → Option IoError)
    (h1 : ∀ i, sink1 i = none) (h2 : ∀ i, sink2 i = none)
    (script : List StorageResp) :
    ∀ st : LoopState,
      runLoop cipher sink1 script st = runLoop cipher sink2 script st := by
  induction script with
  | nil => intro st; rfl
  | cons resp rest ih =>
      intro st
      cases resp with
      | error e => rfl
      | ok n data =>
          simp only [runLoop, h1, h2]
          split
          · rfl
          · rw [ih]



theorem runLoop_err_elim (cipher : Cipher) (sink : Nat → Option IoError)
    (script : List StorageResp) :
    ∀ (st : LoopState) (e : IoError),
      (runLoop cipher sink script st).1 = .err e →
      ∃ k, sink (st.writeIdx + k) = some e ∧
        (∀ j, j < k → sink (st.writeIdx + j) = none) ∧
        (runLoop cipher sink script st).2.writes.length = k + 1 ∧
        (runLoop cipher sink script st).2.ciphers.length = k + 1 ∧
        (runLoop cipher sink script st).2.reads.length = k + 1 := by
  induction script with
  | nil => intro st e h; simp [runLoop] at h
  | cons resp rest ih =>
      intro st e h
      cases resp with
      | error e' => simp [runLoop] at h
      | ok n data =>
          simp only [runLoop] at h ⊢
          by_cases h0 : min data.length BUFFER_SIZE = 0
          · rw [if_pos h0] at h; simp at h
          · rw [if_neg h0] at h ⊢
            cases hs : sink st.writeIdx with
            | some e' =>
                rw [hs] at h
                simp at h
                refine ⟨0, ?_, ?_, ?_, ?_, ?_⟩
                · rw [Nat.add_zero, hs, h]
                · intro j hj; omega
                · simp
                · simp
                · simp
            | none =>
                rw [hs] at h
                simp only [] at h
                obtain ⟨k, hk1, hk2, hk3, hk4, hk5⟩ := ih _ e h
                refine ⟨k + 1, ?_, ?_, ?_, ?_, ?_⟩
                · have harith : st.writeIdx + (k + 1) = (st.writeIdx + 1) + k := by
                    omega
                  rw [harith]
                  exact hk1
                · intro j hj
                  rcases j with _ | j'
                  · rw [Nat.add_zero]; exact hs
                  · have harith : st.writeIdx + (j' + 1) = (st.writeIdx + 1) + j' := by
                      omega
                    rw [harith]
                    exact hk2 j' (by omega)
                · simp [hk3]
                · simp [hk4]
                · simp [hk5]



theorem runLoop_full_chunks (cipher : Cipher) (sink : Nat → Option IoError)
    (hsink : ∀ i, sink i = none) (e : IoError) :
    ∀ (chunks : List (Nat × List Nat)),
      (∀ c ∈ chunks, c.2.length = BUFFER_SIZE) →
      ∀ st : LoopState,
        (runLoop cipher sink
            (chunks.map (fun c => .ok c.1 c.2) ++ [.error e]) st).1 =
          .ok (st.total_size + BUFFER_SIZE * chunks.length) := by
  intro chunks
  induction chunks with
  | nil => intro _ st; simp [runLoop]
  | cons c cs ih =>
      intro hfull st
      have hc : c.2.length = BUFFER_SIZE := hfull c (by simp)
      have hB : (0:Nat) < BUFFER_SIZE := by norm_num [BUFFER_SIZE]
      simp only [List.map_cons, List.cons_append, runLoop, hc, min_self]
      rw [if_neg (by omega), hsink]
      simp only [List.append_eq]
      rw [ih (fun x hx => hfull x (by simp [hx])) _]
      simp only [chunkSize, lt_self_iff_false, if_false]
      congr 1
      simp only [List.length_cons]
      ring



theorem runLoop_accounting (cipher : Cipher) (sink : Nat → Option IoError)
    (script : List StorageResp) :
    ∀ st : LoopState,
      (runLoop cipher sink script st).2.reads.length =
          (runLoop cipher sink script st).2.accum.length ∧
      0 < (runLoop cipher sink script st).2.accum.length ∧
      (runLoop cipher sink script st).2.accum.getD 0 (0, 0) =
          (st.total_size, st.total_entries) ∧
      (∀ i, i < (runLoop cipher sink script st).2.reads.length →
        ((runLoop cipher sink script st).2.reads.getD i ⟨0, 0⟩).maxEntries =
          ENTRIES_PER_SEGMENT -
            ((runLoop cipher sink script st).2.accum.getD i (0, 0)).2) ∧
      List.Chain' (fun p q : Nat × Nat => p.1 ≤ q.1 ∧ p.2 ≤ q.2)
        ((runLoop cipher sink script st).2.accum ++
          [(runLoop cipher sink script st).2.finalAcc]) ∧
      (st.total_entries ≤ ENTRIES_PER_SEGMENT →
        (∀ i, i < (runLoop cipher sink script st).2.reads.length →
          respEntries (script.getD i (.ok 0 [])) ≤
            ((runLoop cipher sink script st).2.reads.getD i ⟨0, 0⟩).maxEntries) →
        (∀ p ∈ (runLoop cipher sink script st).2.accum,
            p.2 ≤ ENTRIES_PER_SEGMENT) ∧
          (runLoop cipher sink script st).2.finalAcc.2 ≤ ENTRIES_PER_SEGMENT) := by
  induction script with
  | nil =>
      intro st
      refine ⟨rfl, by simp [runLoop], rfl, ?_, ?_, ?_⟩
      · intro i hi
        simp [runLoop] at hi
        subst hi
        rfl
      · simp [runLoop]
      · intro hte _
        refine ⟨?_, ?_⟩
        · intro p hp
          simp [runLoop] at hp
          rw [hp]
          exact hte
        · exact hte
  | cons resp rest ih =>
      intro st
      cases resp with
      | error e =>
          refine ⟨rfl, by simp [runLoop], rfl, ?_, ?_, ?_⟩
          · intro i hi
            simp [runLoop] at hi
            subst hi
            rfl
          · simp [runLoop]
          · intro hte _
            refine ⟨?_, ?_⟩
            · intro p hp
              simp [runLoop] at hp
              rw [hp]
              exact hte
            · exact hte
      | ok n data =>
          by_cases h0 : min data.length BUFFER_SIZE = 0
          · constructor
            · simp [runLoop, h0]
            constructor
            · simp [runLoop, h0]
            constructor
            · simp [runLoop, h0]
            constructor
            · intro i hi
              simp [runLoop, h0] at hi ⊢
              subst hi
              simp
            constructor
            · simp [runLoop, h0]
            · intro hte _
              constructor
              · intro p hp
                simp [runLoop, h0] at hp
                rw [hp]
                exact hte
              · simp [runLoop, h0]
                exact hte
          · cases hs : sink st.writeIdx with
            | some e =>
                constructor
                · simp [runLoop, h0, hs]
                constructor
                · simp [runLoop, h0, hs]
                constructor
                · simp [runLoop, h0, hs]
                constructor
                · intro i hi
                  simp [runLoop, h0, hs] at hi ⊢
                  subst hi
                  simp
                constructor
                · simp [runLoop, h0, hs]
                · intro hte _
                  constructor
                  · intro p hp
                    simp [runLoop, h0, hs] at hp
                    rw [hp]
                    exact hte
                  · simp [runLoop, h0, hs]
                    exact hte
            | none =>
                obtain ⟨ih1, ih2, ih3, ih4, ih5, ih6⟩ :=
                  ih { buffer := fillBuffer st.buffer data,
                       ivec := (cipher ((fillBuffer st.buffer data).take
                            (chunkSize (min data.length BUFFER_SIZE)))
                          (List.replicate CHACHA_KEY_SIZE 0) st.ivec).2,
                       total_entries := st.total_entries + n,
                       total_size := st.total_size +
                         chunkSize (min data.length BUFFER_SIZE),
                       entry := st.entry + n,
                       writeIdx := st.writeIdx + 1 }
                constructor
                · simp [runLoop, h0, hs, ih1]
                constructor
                · simp [runLoop, h0, hs]
                constructor
                · simp [runLoop, h0, hs]
                constructor
                · intro i hi
                  simp [runLoop, h0, hs] at hi ⊢
                  rcases i with _ | i'
                  · simp only [List.getElem?_cons_zero, Option.getD_some]
                  · simp only [List.getElem?_cons_succ]
                    have h4 := ih4 i' (by omega)
                    simpa using h4
                constructor
                · simp [runLoop, h0, hs]
                  refine List.chain'_cons'.mpr ⟨?_, ih5⟩
                  intro y hy
                  obtain ⟨a, as, hacc⟩ :=
                    List.exists_cons_of_ne_nil (List.length_pos.mp ih2)
                  rw [hacc] at hy ih3
                  simp at hy ih3
                  rw [← hy, ih3]
                  exact ⟨Nat.le_add_right _ _, Nat.le_add_right _ _⟩
                · intro hte H
                  simp [runLoop, h0, hs] at H ⊢
                  have hH0 := H 0 (by simp)
                  simp [respEntries] at hH0
                  obtain ⟨hA, hF⟩ :=
                    ih6 (by simp; omega)
                      (by
                        intro i hi
                        have hHs := H (i + 1) (by simpa using Nat.succ_lt_succ hi)
                        simpa using hHs)
                  refine ⟨⟨hte, ?_⟩, hF⟩
                  intro a b hab
                  exact hA (a, b) hab


/-! ## Claim theorems -/

/-- C3 counterexample: when `File::create` fails with error 3 the entry
point panics (the `.expect`); the result is not the error value `Err 3`
the claim promises. -/
theorem C3_counterexample :
    (chacha_cbc_encrypt_ledger idCipher (.error ⟨3⟩) (fun _ => none)
        [] 0 []).1 = .panicked ⟨3⟩ ∧
      Outcome.panicked ⟨3⟩ ≠ Outcome.err ⟨3⟩ := by
  exact ⟨rfl, by decide⟩

/-- C3 (amended): when creating the output sink fails the entry point
aborts immediately — no read, cipher call, or write ever happens — but
it does so by panicking (`.expect` aborts the process); the failure is
not returned to the caller as an error value in the `Result`. -/
theorem C3_create_fail_panics (cipher : Cipher) (sink : Nat → Option IoError)
    (script : List StorageResp) (slice : Nat) (ivec : List Nat) (e : IoError) :
    chacha_cbc_encrypt_ledger cipher (.error e) sink script slice ivec =
      (.panicked e, ⟨[], [], [], [], (0, 0)⟩) := rfl

/-- C6: a storage layer whose first read reports zero payload bytes ends
the run normally: total 0, exactly one read issued, no cipher call, and
the sink receives no writes. -/
theorem C6_empty_input (cipher : Cipher) (sink : Nat → Option IoError)
    (slice : Nat) (ivec : List Nat) (n : Nat) (rest : List StorageResp) :
    chacha_cbc_encrypt_ledger cipher (.ok ()) sink (.ok n [] :: rest) slice ivec =
      (.ok 0, ⟨[⟨slice, ENTRIES_PER_SEGMENT⟩], [(0, 0)], [], [], (0, 0)⟩) := rfl

/-- C9: the key passed to every cipher-provider invocation of every run
is the fixed all-zero 32-byte array (`let key = [0; CHACHA_KEY_SIZE]`);
the entry point has no key parameter at all. -/
theorem C9_zero_key (cipher : Cipher) (create_result : Except IoError Unit)
    (sink : Nat → Option IoError) (script : List StorageResp) (slice : Nat)
    (ivec : List Nat) (c : CipherCall)
    (hc : c ∈ (chacha_cbc_encrypt_ledger cipher create_result sink script
        slice ivec).2.ciphers) :
    c.key = List.replicate CHACHA_KEY_SIZE 0 := by
  cases create_result with
  | error e => simp [chacha_cbc_encrypt_ledger] at hc
  | ok u => exact runLoop_ciphers_key cipher sink script _ c hc

/-- Witness for C9: the cipher call recorded by a concrete run indeed
carries the all-zero key. -/
theorem C9_zero_key_witness :
    (⟨1, 5 :: List.replicate 31 0, List.replicate CHACHA_KEY_SIZE 0, []⟩ :
        CipherCall).key = List.replicate CHACHA_KEY_SIZE 0 :=
  C9_zero_key idCipher (.ok ()) (fun _ => none) [.ok 1 [5]] 0 []
    ⟨1, 5 :: List.replicate 31 0, List.replicate CHACHA_KEY_SIZE 0, []⟩ (by decide)

/-- C8: the driver is deterministic: the same cipher provider, storage
contents, (fixed) key and starting IV produce identical outcomes and
identical ciphertext write streams — even across two different sinks, as
long as neither write fails. -/
theorem C8_determinism (cipher : Cipher) (script : List StorageResp)
    (slice : Nat) (ivec : List Nat) (sink1 sink2 : Nat → Option IoError)
    (h1 : ∀ i, sink1 i = none) (h2 : ∀ i, sink2 i = none) :
    chacha_cbc_encrypt_ledger cipher (.ok ()) sink1 script slice ivec =
      chacha_cbc_encrypt_ledger cipher (.ok ()) sink2 script slice ivec :=
  runLoop_sink_eq cipher sink1 sink2 h1 h2 script _

/-- Witness for C8 on a concrete run with two syntactically different
(never failing) sinks. -/
theorem C8_determinism_witness :
    chacha_cbc_encrypt_ledger idCipher (.ok ()) (fun _ => none)
        [.ok 1 [5]] 0 [] =
      chacha_cbc_encrypt_ledger idCipher (.ok ())
        (fun i => if i + 1 = 0 then some ⟨1⟩ else none) [.ok 1 [5]] 0 [] :=
  C8_determinism idCipher [.ok 1 [5]] 0 [] _ _ (fun _ => rfl)
    (fun i => by simp)

/-- C5: a run that ends in `Err e` did so because the sink reported `e`
on the last write attempt: every earlier write attempt succeeded (the
failing write is never retried) and the trace stops at that point — k+1
reads, k+1 cipher calls and k+1 write attempts in total, so nothing is
read, encrypted or written after the failing write. -/
theorem C5_sink_error_aborts (cipher : Cipher) (sink : Nat → Option IoError)
    (script : List StorageResp) (slice : Nat) (ivec : List Nat) (e : IoError)
    (h : (chacha_cbc_encrypt_ledger cipher (.ok ()) sink script slice ivec).1 =
      .err e) :
    ∃ k, sink k = some e ∧ (∀ j, j < k → sink j = none) ∧
      (chacha_cbc_encrypt_ledger cipher (.ok ()) sink script slice
          ivec).2.writes.length = k + 1 ∧
      (chacha_cbc_encrypt_ledger cipher (.ok ()) sink script slice
          ivec).2.ciphers.length = k + 1 ∧
      (chacha_cbc_encrypt_ledger cipher (.ok ()) sink script slice
          ivec).2.reads.length = k + 1 := by
  have hh := runLoop_err_elim cipher sink script
    { buffer := List.replicate BUFFER_SIZE 0, ivec := ivec,
      total_entries := 0, total_size := 0, entry := slice, writeIdx := 0 } e h
  simpa using hh

/-- Witness for C5: a sink failing on its first write makes a concrete
run abort with that error after exactly one read, encrypt and write. -/
theorem C5_sink_error_aborts_witness :
    ∃ k, (fun i => if i = 0 then some (⟨7⟩ : IoError) else none) k =
        some (⟨7⟩ : IoError) ∧
      (∀ j, j < k →
        (fun i => if i = 0 then some (⟨7⟩ : IoError) else none) j = none) ∧
      (chacha_cbc_encrypt_ledger idCipher (.ok ())
          (fun i => if i = 0 then some (⟨7⟩ : IoError) else none)
          [.ok 1 [5]] 0 []).2.writes.length = k + 1 ∧
      (chacha_cbc_encrypt_ledger idCipher (.ok ())
          (fun i => if i = 0 then some (⟨7⟩ : IoError) else none)
          [.ok 1 [5]] 0 []).2.ciphers.length = k + 1 ∧
      (chacha_cbc_encrypt_ledger idCipher (.ok ())
          (fun i => if i = 0 then some (⟨7⟩ : IoError) else none)
          [.ok 1 [5]] 0 []).2.reads.length = k + 1 :=
  C5_sink_error_aborts idCipher
    (fun i => if i = 0 then some (⟨7⟩ : IoError) else none)
    [.ok 1 [5]] 0 [] ⟨7⟩ (by decide)

/-- C4: when the storage layer succeeds for N full 8192-byte chunks and
then returns a read error, the run stops and returns `Ok (N * 8192)`;
the storage error is never surfaced to the caller. -/
theorem C4_storage_error_soft_stop (cipher : Cipher)
    (sink : Nat → Option IoError) (hsink : ∀ i, sink i = none)
    (slice : Nat) (ivec : List Nat) (e : IoError)
    (chunks : List (Nat × List Nat))
    (hfull : ∀ c ∈ chunks, c.2.length = BUFFER_SIZE) :
    (chacha_cbc_encrypt_ledger cipher (.ok ()) sink
        (chunks.map (fun c => .ok c.1 c.2) ++ [.error e]) slice ivec).1 =
      .ok (BUFFER_SIZE * chunks.length) := by
  have hh := runLoop_full_chunks cipher sink hsink e chunks hfull
    { buffer := List.replicate BUFFER_SIZE 0, ivec := ivec,
      total_entries := 0, total_size := 0, entry := slice, writeIdx := 0 }
  simpa using hh

/-- Witness for C4: one full chunk then a storage error yields Ok 8192. -/
theorem C4_storage_error_soft_stop_witness :
    (chacha_cbc_encrypt_ledger idCipher (.ok ()) (fun _ => none)
        (([(1, List.replicate BUFFER_SIZE 0)] :
            List (Nat × List Nat)).map (fun c => .ok c.1 c.2) ++
          [.error ⟨9⟩]) 0 []).1 = .ok (BUFFER_SIZE * 1) :=
  C4_storage_error_soft_stop idCipher (fun _ => none) (fun _ => rfl) 0 [] ⟨9⟩
    [(1, List.replicate BUFFER_SIZE 0)]
    (by intro c hc; simp at hc; rw [hc]; simp)

/-- C1 counterexample: a run whose terminal chunk has 96 payload bytes
feeds the cipher (and adds to the running total) 96 bytes — because the
code rounds to the 32-byte KEY size and 96 is already a multiple of 32 —
instead of 128, the next multiple of the 64-byte cipher block size that
the claim requires; 96 is not even divisible by the block size. -/
theorem C1_counterexample :
    ((chacha_cbc_encrypt_ledger idCipher (.ok ()) (fun _ => none)
        [.ok 1 (List.replicate 96 1)] 0 []).2.ciphers.map
      fun c => c.payload) = [96] ∧
    ((chacha_cbc_encrypt_ledger idCipher (.ok ()) (fun _ => none)
        [.ok 1 (List.replicate 96 1)] 0 []).2.ciphers.map
      fun c => c.input.length) = [96] ∧
    ¬ CHACHA_BLOCK_SIZE ∣ 96 := by
  exact ⟨by decide, by decide, by decide⟩

/-- C1 (amended): in every run, every cipher invocation is on a nonzero
payload of at most 8192 bytes; a chunk shorter than the buffer is fed
(and accumulated) as the payload rounded up to the next multiple of the
cipher KEY size — 32 bytes, not the 64-byte block size — while a full
chunk is fed exactly its 8192 bytes un-rounded; the final byte total is
the sum of the fed sizes. -/
theorem C1_chunk_rounding (cipher : Cipher)
    (create_result : Except IoError Unit) (sink : Nat → Option IoError)
    (script : List StorageResp) (slice : Nat) (ivec : List Nat) :
    (∀ c ∈ (chacha_cbc_encrypt_ledger cipher create_result sink script slice
        ivec).2.ciphers,
      0 < c.payload ∧ c.payload ≤ BUFFER_SIZE ∧
      (c.payload < BUFFER_SIZE →
        c.input.length =
          CHACHA_KEY_SIZE * ((c.payload + CHACHA_KEY_SIZE - 1) /
            CHACHA_KEY_SIZE)) ∧
      (c.payload = BUFFER_SIZE → c.input.length = BUFFER_SIZE)) ∧
    (chacha_cbc_encrypt_ledger cipher create_result sink script slice
        ivec).2.finalAcc.1 =
      (((chacha_cbc_encrypt_ledger cipher create_result sink script slice
          ivec).2.ciphers.map fun c => c.input.length).sum) := by
  cases create_result with
  | error e =>
      exact ⟨by simp [chacha_cbc_encrypt_ledger],
             by simp [chacha_cbc_encrypt_ledger]⟩
  | ok u =>
      have hbuf : (List.replicate BUFFER_SIZE (0 : Nat)).length = BUFFER_SIZE :=
        List.length_replicate _ _
      constructor
      · intro c hc
        have h := runLoop_ciphers_sizes cipher sink script
          { buffer := List.replicate BUFFER_SIZE 0, ivec := ivec,
            total_entries := 0, total_size := 0, entry := slice,
            writeIdx := 0 } hbuf c hc
        refine ⟨h.1, h.2.1, ?_, ?_⟩
        · intro hlt
          rw [h.2.2]
          rw [chunkSize, if_pos hlt]
          exact round_to_key_size_eq _
            (by simp only [BUFFER_SIZE] at hlt; omega)
        · intro heq
          rw [h.2.2, heq]
          simp [chunkSize]
      · have hh := runLoop_final_size cipher sink script
          { buffer := List.replicate BUFFER_SIZE 0, ivec := ivec,
            total_entries := 0, total_size := 0, entry := slice,
            writeIdx := 0 } hbuf
        simpa using hh

/-- Witness for C1 (amended): the single cipher call of a concrete run
with a 100-byte terminal chunk is fed 128 = 32 * 4 bytes. -/
theorem C1_chunk_rounding_witness :
    (⟨100, List.replicate 100 7 ++ List.replicate 28 0,
        List.replicate CHACHA_KEY_SIZE 0, []⟩ : CipherCall) ∈
      (chacha_cbc_encrypt_ledger idCipher (.ok ()) (fun _ => none)
        [.ok 1 (List.replicate 100 7)] 0 []).2.ciphers ∧
    (List.replicate 100 7 ++ List.replicate (28 : Nat) 0).length =
      CHACHA_KEY_SIZE * ((100 + CHACHA_KEY_SIZE - 1) / CHACHA_KEY_SIZE) :=
  ⟨by decide,
   ((C1_chunk_rounding idCipher (.ok ()) (fun _ => none)
      [.ok 1 (List.replicate 100 7)] 0 []).1
      ⟨100, List.replicate 100 7 ++ List.replicate 28 0,
        List.replicate CHACHA_KEY_SIZE 0, []⟩ (by decide)).2.2.1 (by decide)⟩

/-- C2 counterexample: a storage whose first chunk is 100 bytes — short
of the 8192-byte capacity — still receives a second read request after
the single padded write: the concrete run records two reads. -/
theorem C2_counterexample :
    (chacha_cbc_encrypt_ledger idCipher (.ok ()) (fun _ => none)
        [.ok 1 (List.replicate 100 7)] 0 []).2.writes.length = 1 ∧
    (chacha_cbc_encrypt_ledger idCipher (.ok ()) (fun _ => none)
        [.ok 1 (List.replicate 100 7)] 0 []).2.reads.length = 2 := by
  exact ⟨by decide, by decide⟩

/-- C2 (amended): a storage layer whose first read returns a nonzero
payload strictly smaller than the capacity gets exactly one padded
(32-byte aligned) encrypt-and-write, but the loop does not terminate on
the short chunk itself: the driver issues one more read request, and the
run ends because that read reports the end of the data. -/
theorem C2_short_first_read (cipher : Cipher) (sink : Nat → Option IoError)
    (slice : Nat) (ivec : List Nat) (n : Nat) (data : List Nat)
    (h1 : 0 < data.length) (h2 : data.length < BUFFER_SIZE)
    (hsink : sink 0 = none) :
    (chacha_cbc_encrypt_ledger cipher (.ok ()) sink [.ok n data] slice
        ivec).1 =
      .ok (CHACHA_KEY_SIZE * ((data.length + CHACHA_KEY_SIZE - 1) /
        CHACHA_KEY_SIZE)) ∧
    (chacha_cbc_encrypt_ledger cipher (.ok ()) sink [.ok n data] slice
        ivec).2.writes.length = 1 ∧
    (chacha_cbc_encrypt_ledger cipher (.ok ()) sink [.ok n data] slice
        ivec).2.ciphers.length = 1 ∧
    (chacha_cbc_encrypt_ledger cipher (.ok ()) sink [.ok n data] slice
        ivec).2.reads.length = 2 := by
  have hmin : min data.length BUFFER_SIZE = data.length :=
    min_eq_left (le_of_lt h2)
  have hne : ¬ (min data.length BUFFER_SIZE = 0) := by omega
  have hrd := round_to_key_size_eq data.length
    (by simp only [BUFFER_SIZE] at h2; omega)
  have hnil : ¬ (data = []) := by
    intro h
    rw [h] at h1
    simp at h1
  simp [chacha_cbc_encrypt_ledger, runLoop, hmin, hne, hsink, chunkSize, h2,
    hrd, hnil]

/-- Witness for C2 (amended) on the 100-byte concrete run. -/
theorem C2_short_first_read_witness :
    (chacha_cbc_encrypt_ledger idCipher (.ok ()) (fun _ => none)
        [.ok 1 (List.replicate 100 7)] 0 []).1 = .ok 128 ∧
    (chacha_cbc_encrypt_ledger idCipher (.ok ()) (fun _ => none)
        [.ok 1 (List.replicate 100 7)] 0 []).2.writes.length = 1 ∧
    (chacha_cbc_encrypt_ledger idCipher (.ok ()) (fun _ => none)
        [.ok 1 (List.replicate 100 7)] 0 []).2.ciphers.length = 1 ∧
    (chacha_cbc_encrypt_ledger idCipher (.ok ()) (fun _ => none)
        [.ok 1 (List.replicate 100 7)] 0 []).2.reads.length = 2 := by
  have hh := C2_short_first_read idCipher (fun _ => none) 0 [] 1
    (List.replicate 100 7) (by simp) (by simp [BUFFER_SIZE]) rfl
  simpa using hh

/-- C10: every read request's record bound equals the segment capacity
minus the records consumed so far (the snapshot recorded at the start of
that iteration); whenever the storage never returns more records than
the issued request allows, the cumulative record count never exceeds the
capacity; and the (bytes, records) accumulators are monotonically
non-decreasing across iterations. -/
theorem C10_read_bounds (cipher : Cipher) (sink : Nat → Option IoError)
    (script : List StorageResp) (slice : Nat) (ivec : List Nat) :
    (chacha_cbc_encrypt_ledger cipher (.ok ()) sink script slice
        ivec).2.reads.length =
      (chacha_cbc_encrypt_ledger cipher (.ok ()) sink script slice
        ivec).2.accum.length ∧
    (∀ i, i < (chacha_cbc_encrypt_ledger cipher (.ok ()) sink script slice
        ivec).2.reads.length →
      ((chacha_cbc_encrypt_ledger cipher (.ok ()) sink script slice
          ivec).2.reads.getD i ⟨0, 0⟩).maxEntries =
        ENTRIES_PER_SEGMENT -
          ((chacha_cbc_encrypt_ledger cipher (.ok ()) sink script slice
            ivec).2.accum.getD i (0, 0)).2) ∧
    List.Chain' (fun p q : Nat × Nat => p.1 ≤ q.1 ∧ p.2 ≤ q.2)
      ((chacha_cbc_encrypt_ledger cipher (.ok ()) sink script slice
          ivec).2.accum ++
        [(chacha_cbc_encrypt_ledger cipher (.ok ()) sink script slice
          ivec).2.finalAcc]) ∧
    ((∀ i, i < (chacha_cbc_encrypt_ledger cipher (.ok ()) sink script slice
        ivec).2.reads.length →
      respEntries (script.getD i (.ok 0 [])) ≤
        ((chacha_cbc_encrypt_ledger cipher (.ok ()) sink script slice
          ivec).2.reads.getD i ⟨0, 0⟩).maxEntries) →
      (∀ p ∈ (chacha_cbc_encrypt_ledger cipher (.ok ()) sink script slice
          ivec).2.accum, p.2 ≤ ENTRIES_PER_SEGMENT) ∧
        (chacha_cbc_encrypt_ledger cipher (.ok ()) sink script slice
          ivec).2.finalAcc.2 ≤ ENTRIES_PER_SEGMENT) := by
  obtain ⟨h1, h2, h3, h4, h5, h6⟩ := runLoop_accounting cipher sink script
    { buffer := List.replicate BUFFER_SIZE 0, ivec := ivec,
      total_entries := 0, total_size := 0, entry := slice, writeIdx := 0 }
  exact ⟨h1, h4, h5, fun hH => h6 (Nat.zero_le _) hH⟩

/-- Witness for C10 on a concrete run: the first request asks for the
full segment capacity, and with a well-behaved storage the final record
count stays within the capacity. -/
theorem C10_read_bounds_witness :
    ((chacha_cbc_encrypt_ledger idCipher (.ok ()) (fun _ => none)
        [.ok 1 [5]] 0 []).2.reads.getD 0 ⟨0, 0⟩).maxEntries =
      ENTRIES_PER_SEGMENT -
        ((chacha_cbc_encrypt_ledger idCipher (.ok ()) (fun _ => none)
          [.ok 1 [5]] 0 []).2.accum.getD 0 (0, 0)).2 ∧
    (chacha_cbc_encrypt_ledger idCipher (.ok ()) (fun _ => none)
        [.ok 1 [5]] 0 []).2.finalAcc.2 ≤ ENTRIES_PER_SEGMENT := by
  obtain ⟨h1, h4, h5, h6⟩ :=
    C10_read_bounds idCipher (fun _ => none) [.ok 1 [5]] 0 []
  refine ⟨h4 0 (by decide), (h6 ?_).2⟩
  intro i hi
  have hlen : (chacha_cbc_encrypt_ledger idCipher (.ok ()) (fun _ => none)
      [.ok 1 [5]] 0 []).2.reads.length = 2 := by decide
  rw [hlen] at hi
  rcases i with _ | i
  · decide
  · rcases i with _ | i
    · decide
    · exact absurd hi (by omega)

/-- C7: for storage yielding chunks of 8192, 8192 and 100 payload bytes
followed by a zero-byte read, the driver encrypts the two full chunks at
8192 bytes each, rounds the final chunk up to 128 bytes, and returns a
total of 16512 bytes. -/
theorem C7_sample_scenario (cipher : Cipher) (slice : Nat) (ivec : List Nat)
    (a b c d : Nat) (d1 d2 d3 : List Nat)
    (h1 : d1.length = BUFFER_SIZE) (h2 : d2.length = BUFFER_SIZE)
    (h3 : d3.length = 100) :
    (chacha_cbc_encrypt_ledger cipher (.ok ()) (fun _ => none)
        [.ok a d1, .ok b d2, .ok c d3, .ok d []] slice ivec).1 = .ok 16512 ∧
    ((chacha_cbc_encrypt_ledger cipher (.ok ()) (fun _ => none)
        [.ok a d1, .ok b d2, .ok c d3, .ok d []] slice ivec).2.ciphers.map
      fun cc => cc.input.length) = [8192, 8192, 128] := by
  have hmin1 : min d1.length BUFFER_SIZE = BUFFER_SIZE := by rw [h1]; simp
  have hmin2 : min d2.length BUFFER_SIZE = BUFFER_SIZE := by rw [h2]; simp
  have hmin3 : min d3.length BUFFER_SIZE = 100 := by rw [h3]; decide
  have hchB : chunkSize BUFFER_SIZE = BUFFER_SIZE := by simp [chunkSize]
  have hch100 : chunkSize 100 = 128 := by decide
  have hBne : ¬ (BUFFER_SIZE = 0) := by decide
  have hd1ne : ¬ (d1 = []) := by
    intro h; rw [h] at h1; simp [BUFFER_SIZE] at h1
  have hd2ne : ¬ (d2 = []) := by
    intro h; rw [h] at h2; simp [BUFFER_SIZE] at h2
  have hd3ne : ¬ (d3 = []) := by
    intro h; rw [h] at h3; simp at h3
  have hbuf0 : (List.replicate BUFFER_SIZE (0 : Nat)).length = BUFFER_SIZE :=
    List.length_replicate _ _
  have hf1 := fillBuffer_length (List.replicate BUFFER_SIZE 0) d1 hbuf0
  have hf2 := fillBuffer_length _ d2 hf1
  have hf3 := fillBuffer_length _ d3 hf2
  have ht1 : ((fillBuffer (List.replicate BUFFER_SIZE 0) d1).take
      BUFFER_SIZE).length = BUFFER_SIZE := by
    rw [List.length_take, hf1]; simp
  have ht2 : ((fillBuffer (fillBuffer (List.replicate BUFFER_SIZE 0) d1)
      d2).take BUFFER_SIZE).length = BUFFER_SIZE := by
    rw [List.length_take, hf2]; simp
  have ht3 : ((fillBuffer (fillBuffer (fillBuffer
      (List.replicate BUFFER_SIZE 0) d1) d2) d3).take 128).length = 128 := by
    rw [List.length_take, hf3]; decide
  simp [chacha_cbc_encrypt_ledger, runLoop, hmin1, hmin2, hmin3, hchB,
    hch100, hBne, hd1ne, hd2ne, hd3ne, ht1, ht2, ht3]
  exact ⟨by decide, by decide⟩


/-- Witness for C7 with concrete chunk contents. -/
theorem C7_sample_scenario_witness :
    (chacha_cbc_encrypt_ledger idCipher (.ok ()) (fun _ => none)
        [.ok 1 (List.replicate BUFFER_SIZE 2),
         .ok 1 (List.replicate BUFFER_SIZE 3),
         .ok 1 (List.replicate 100 4), .ok 0 []] 0 []).1 = .ok 16512 :=
  (C7_sample_scenario idCipher 0 [] 1 1 1 0 (List.replicate BUFFER_SIZE 2)
    (List.replicate BUFFER_SIZE 3) (List.replicate 100 4)
    (List.length_replicate _ _) (List.length_replicate _ _)
    (List.length_replicate _ _)).1

end ChaCha
